import Mathlib

/-!
Verification of the deep-research service core: the recursive character
text splitter and prompt trimmer (text-splitter / providers modules) and
the recursive research orchestrator (deep-research module).

Strings manipulated by the splitter are modelled as `List Char` (a JS
string is a sequence of code units; only lengths, slicing, splitting and
joining matter here).  External effects (the language-model calls, the
search HTTP call) are modelled as oracle functions returning
`Except String _`: a thrown JS exception (including a timeout rejection)
is an `.error` value.
-/

/-- Sum of the lengths of a list of pieces (the splitter's running
`total` counter always equals this for the current window). -/
def sumLen : List (List Char) → Nat
  | [] => 0
  | d :: ds => d.length + sumLen ds

/-- Model of JS `Array.prototype.join(separator)`: pieces interleaved
with the separator. -/
def joinSep (sep : List Char) : List (List Char) → List Char
  | [] => []
  | [d] => d
  | d :: d2 :: ds => d ++ sep ++ joinSep sep (d2 :: ds)

/-- Model of JS `String.prototype.trim()`: drop whitespace from both
ends. -/
def trimL (l : List Char) : List Char :=
  ((l.dropWhile Char.isWhitespace).reverse.dropWhile Char.isWhitespace).reverse

/-- TextSplitter.joinDocs: join the window with the separator, trim it,
and return `none` when the trimmed text is empty (source: text-splitter,
`joinDocs`). -/
def joinDocs (docs : List (List Char)) (sep : List Char) : Option (List Char) :=
  let text := trimL (joinSep sep docs)
  if text = [] then none else some text

/-- The `while` loop inside `TextSplitter.mergeSplits`: keep popping the
window's first piece while `total > chunkOverlap || (total + len >
chunkSize && total > 0)`.  When the window is empty the counter `total`
is `0` (it always equals `sumLen` of the window), so the loop guard is
false and the loop exits; the `[]` case returns the state unchanged,
which coincides with that behaviour. -/
def shrink (ov cs len : Nat) (doc : List (List Char)) (total : Nat) :
    List (List Char) × Nat :=
  match doc with
  | [] => ([], total)
  | d :: rest =>
    if ov < total ∨ (cs < total + len ∧ 0 < total) then
      shrink ov cs len rest (total - d.length)
    else (d :: rest, total)

/-- Main loop of `TextSplitter.mergeSplits`: walk the pieces keeping a
running window `currentDoc` with its total length `total`; when adding a
piece would reach or exceed `chunkSize`, emit the joined window (if
non-empty after trimming) and shrink the window from the front, then
append the piece (source: text-splitter, `mergeSplits`). -/
def mergeSplitsGo (cs ov : Nat) (sep : List Char) :
    List (List Char) → List (List Char) → Nat → List (List Char)
  | [], currentDoc, _total => (joinDocs currentDoc sep).toList
  | d :: ds, currentDoc, total =>
    if cs ≤ total + d.length then
      if currentDoc = [] then
        mergeSplitsGo cs ov sep ds (currentDoc ++ [d]) (total + d.length)
      else
        (joinDocs currentDoc sep).toList ++
          (let p := shrink ov cs d.length currentDoc total
           mergeSplitsGo cs ov sep ds (p.1 ++ [d]) (p.2 + d.length))
    else
      mergeSplitsGo cs ov sep ds (currentDoc ++ [d]) (total + d.length)

/-- TextSplitter.mergeSplits for a splitter with `chunkSize = cs` and
`chunkOverlap = ov`. -/
def mergeSplits (cs ov : Nat) (splits : List (List Char)) (sep : List Char) :
    List (List Char) :=
  mergeSplitsGo cs ov sep splits [] 0

/-- Model of JS `text.includes(s)`: whether `sep` occurs as a contiguous
subsequence of `text`. -/
def containsSeq (sep : List Char) : List Char → Bool
  | [] => sep.isPrefixOf []
  | c :: rest => sep.isPrefixOf (c :: rest) || containsSeq sep rest

/-- Separator selection loop of `RecursiveCharacterTextSplitter.splitText`:
the first separator in the priority list that is the empty string or
occurs in the text; `dflt` is the initial value `separators[last]`. -/
def chooseSepGo (text : List Char) : List (List Char) → List Char → List Char
  | [], dflt => dflt
  | s :: ss, dflt =>
    if s = [] then s
    else if containsSeq s text then s
    else chooseSepGo text ss dflt

/-- The default separator priority list
`['\n\n', '\n', '.', ',', '>', '<', ' ', '']`. -/
def defaultSeparators : List (List Char) :=
  [['\n', '\n'], ['\n'], ['.'], [','], ['>'], ['<'], [' '], []]

/-- Separator choice for a text, over the default separator list. -/
def chooseSep (text : List Char) : List Char :=
  chooseSepGo text defaultSeparators (defaultSeparators.getLastD [])

/-- Scanner behind JS `String.prototype.split` with a non-empty
separator `s0 :: sep`: leftmost non-overlapping matches.  The fuel
argument only serves Lean's structural recursion; each step consumes at
least one character of `l`, so `l.length + 1` fuel never runs out (the
fuel-exhausted value is chosen so that re-joining with the separator is
still left inverse to splitting). -/
def splitBySepGoF (s0 : Char) (sep : List Char) :
    Nat → List Char → List Char → List (List Char)
  | 0, acc, l => [acc.reverse ++ l]
  | _fuel + 1, acc, [] => [acc.reverse]
  | fuel + 1, acc, c :: rest =>
    if (s0 :: sep).isPrefixOf (c :: rest) then
      acc.reverse :: splitBySepGoF s0 sep fuel [] (rest.drop sep.length)
    else
      splitBySepGoF s0 sep fuel (c :: acc) rest

/-- Model of JS `text.split(sep)`; for the empty separator this is
`text.split('')`, i.e. the list of single characters. -/
def jsSplit (sep text : List Char) : List (List Char) :=
  match sep with
  | [] => text.map (fun c => [c])
  | s0 :: sep1 => splitBySepGoF s0 sep1 (text.length + 1) [] text

/-- Piece-walking loop of `splitText`: accumulate pieces shorter than
`chunkSize` into `good`; on an oversized piece flush `good` through
`mergeSplits` and append the recursive split (`rec`) of the oversized
piece; flush the remaining buffer at the end. -/
def splitLoop (cs ov : Nat) (sep : List Char)
    (rec : List Char → List (List Char)) :
    List (List Char) → List (List Char) → List (List Char)
  | [], good => if good = [] then [] else mergeSplits cs ov good sep
  | s :: ss, good =>
    if s.length < cs then
      splitLoop cs ov sep rec ss (good ++ [s])
    else
      ((if good = [] then [] else mergeSplits cs ov good sep) ++ rec s) ++
        splitLoop cs ov sep rec ss []

/-- RecursiveCharacterTextSplitter.splitText, with a fuel bound on the
recursion depth (the recursion is only entered on pieces of length at
least `chunkSize`, each level strictly shorter, so `text.length + 1`
fuel suffices). -/
def splitTextF (cs ov : Nat) : Nat → List Char → List (List Char)
  | 0, _ => []
  | fuel + 1, text =>
    let sep := chooseSep text
    splitLoop cs ov sep (splitTextF cs ov fuel) (jsSplit sep text) []

/-- RecursiveCharacterTextSplitter.splitText over the default
separators, for a splitter with `chunkSize = cs`, `chunkOverlap = ov`. -/
def splitText (cs ov : Nat) (text : List Char) : List (List Char) :=
  splitTextF cs ov (text.length + 1) text

/-- Variant of `shrink` written from the specification's words for the
window-shrink rule, to be compared with the implementation: drop leading
pieces "until either the window's total length is below `chunkOverlap`,
or adding the new piece would no longer overflow `chunkSize`" — a
disjunction of the two stop conditions, each read strictly. -/
def shrinkDisj (ov cs len : Nat) (doc : List (List Char)) (total : Nat) :
    List (List Char) × Nat :=
  match doc with
  | [] => ([], total)
  | d :: rest =>
    if total < ov ∨ total + len < cs then (d :: rest, total)
    else shrinkDisj ov cs len rest (total - d.length)

/-- The `mergeSplits` the specification describes: identical to the
implementation except that the window-shrink loop uses the
specification's disjunctive stop rule `shrinkDisj`. -/
def mergeSplitsGoDisj (cs ov : Nat) (sep : List Char) :
    List (List Char) → List (List Char) → Nat → List (List Char)
  | [], currentDoc, _total => (joinDocs currentDoc sep).toList
  | d :: ds, currentDoc, total =>
    if cs ≤ total + d.length then
      if currentDoc = [] then
        mergeSplitsGoDisj cs ov sep ds (currentDoc ++ [d]) (total + d.length)
      else
        (joinDocs currentDoc sep).toList ++
          (let p := shrinkDisj ov cs d.length currentDoc total
           mergeSplitsGoDisj cs ov sep ds (p.1 ++ [d]) (p.2 + d.length))
    else
      mergeSplitsGoDisj cs ov sep ds (currentDoc ++ [d]) (total + d.length)

/-- Specification-worded `mergeSplits` (disjunctive shrink rule). -/
def mergeSplitsDisj (cs ov : Nat) (splits : List (List Char)) (sep : List Char) :
    List (List Char) :=
  mergeSplitsGoDisj cs ov sep splits [] 0

/-- Shrink loop with its stop condition written positively: stop as soon
as the window total is at most `chunkOverlap` AND (adding the new piece
no longer exceeds `chunkSize`, or the window has been emptied) — the
conjunction that is the exact negation of the implementation's `while`
guard. -/
def shrinkConj (ov cs len : Nat) (doc : List (List Char)) (total : Nat) :
    List (List Char) × Nat :=
  match doc with
  | [] => ([], total)
  | d :: rest =>
    if total ≤ ov ∧ (total + len ≤ cs ∨ total = 0) then (d :: rest, total)
    else shrinkConj ov cs len rest (total - d.length)

/-- `mergeSplits` with the shrink loop's stop condition written as the
conjunction `shrinkConj`; proved equal to the implementation. -/
def mergeSplitsGoConj (cs ov : Nat) (sep : List Char) :
    List (List Char) → List (List Char) → Nat → List (List Char)
  | [], currentDoc, _total => (joinDocs currentDoc sep).toList
  | d :: ds, currentDoc, total =>
    if cs ≤ total + d.length then
      if currentDoc = [] then
        mergeSplitsGoConj cs ov sep ds (currentDoc ++ [d]) (total + d.length)
      else
        (joinDocs currentDoc sep).toList ++
          (let p := shrinkConj ov cs d.length currentDoc total
           mergeSplitsGoConj cs ov sep ds (p.1 ++ [d]) (p.2 + d.length))
    else
      mergeSplitsGoConj cs ov sep ds (currentDoc ++ [d]) (total + d.length)

/-- Conjunctive-rule `mergeSplits`. -/
def mergeSplitsConj (cs ov : Nat) (splits : List (List Char)) (sep : List Char) :
    List (List Char) :=
  mergeSplitsGoConj cs ov sep splits [] 0

/-- The `MinChunkSize` constant of the providers module (minimum
character floor for `trimPrompt`). -/
def MinChunkSize : Nat := 140

/-- The `chunkSize` local of `trimPrompt`: `prompt.length -
overflowTokens * 3` where `overflowTokens = enc(prompt) - contextSize`,
computed in `Int` because the JS expression can go negative. -/
def chunkSizeOf (enc : List Char → Nat) (prompt : List Char) (contextSize : Nat) : Int :=
  (prompt.length : Int) - ((enc prompt - contextSize : Nat) : Int) * 3

/-- The `trimmedPrompt` local of `trimPrompt`:
`splitter.splitText(prompt)[0] ?? ''` for a splitter configured at
`(chunkSize, chunkOverlap = 0)`. -/
def trimmedPromptOf (enc : List Char → Nat) (prompt : List Char) (contextSize : Nat) :
    List Char :=
  (splitText (chunkSizeOf enc prompt contextSize).toNat 0 prompt).headD []

/-- Providers-module `trimPrompt`, parameterized by the tokenizer's
length function `enc` (the `o200k_base` encoder is external; only the
token count of a string is used).  The fuel argument serves structural
recursion; each recursive call strictly reduces `prompt.length` (see
`trimPromptF_fuel_irrel`), so `prompt.length + 1` fuel never runs out. -/
def trimPromptF (enc : List Char → Nat) : Nat → List Char → Nat → List Char
  | 0, prompt, _ => prompt
  | fuel + 1, prompt, contextSize =>
    if prompt = [] then []
    else if enc prompt ≤ contextSize then prompt
    else if chunkSizeOf enc prompt contextSize < (MinChunkSize : Int) then
      prompt.take MinChunkSize
    else if (trimmedPromptOf enc prompt contextSize).length = prompt.length then
      trimPromptF enc fuel (prompt.take (chunkSizeOf enc prompt contextSize).toNat) contextSize
    else
      trimPromptF enc fuel (trimmedPromptOf enc prompt contextSize) contextSize

/-- Providers-module `trimPrompt(prompt, contextSize)` over an abstract
tokenizer length function. -/
def trimPrompt (enc : List Char → Nat) (prompt : List Char) (contextSize : Nat) :
    List Char :=
  trimPromptF enc (prompt.length + 1) prompt contextSize

/-- The character-count tokenizer (each character one token): a concrete
instance of the abstract tokenizer used for witnesses. -/
def lenEnc : List Char → Nat := List.length

/-- A search result item of the custom search API (`CustomSearchResult`);
`possible_query_used` is never read by the logic and is omitted. -/
structure CustomSearchResult where
  date : String
  title : String
  body : String
  url : String
  image : String
  source : String
  content : String
deriving DecidableEq, Repr

/-- A planned SERP query with its research goal (the objects produced by
`generateSerpQueries`). -/
structure SerpQuery where
  query : String
  researchGoal : String
deriving DecidableEq, Repr

/-- Result of one distillation (`processSerpResult`): learnings and
follow-up questions. -/
structure DistillOut where
  learnings : List String
  followUpQuestions : List String
deriving DecidableEq, Repr

/-- The `ResearchResult` type of the deep-research module. -/
structure ResearchResult where
  learnings : List String
  visitedUrls : List String
deriving DecidableEq, Repr

/-- Oracles for the external effects of the orchestrator.  `planLLM` is
the `generateObject` call inside `generateSerpQueries`; `search` is
`customSearchAPI.search(query, limit)`; `distill` is the `generateObject`
call at the end of `processSerpResult` (its arguments: query, extracted
contents, numLearnings, numFollowUpQuestions); `enc` is the tokenizer
length used by the `trimPrompt` applications inside `processSerpResult`.
An `.error` models a rejected promise (thrown error or timeout). -/
structure Env where
  planLLM : String → List String → Nat → Except String (List SerpQuery)
  search : String → Nat → Except String (List CustomSearchResult)
  distill : String → List String → Nat → Nat → Except String DistillOut
  enc : List Char → Nat

/-- Model of lodash `compact` on a list of strings: drop the falsy
(empty) strings. -/
def jsCompact (l : List String) : List String := l.filter (fun s => s ≠ "")

/-- The JS expression `item.content || item.body || item.title`. -/
def jsOrContent (item : CustomSearchResult) : String :=
  if item.content ≠ "" then item.content
  else if item.body ≠ "" then item.body
  else item.title

/-- String-typed wrapper of the providers-module `trimPrompt` used by
`processSerpResult`. -/
def trimPromptS (enc : List Char → Nat) (s : String) (contextSize : Nat) : String :=
  ⟨trimPrompt enc s.data contextSize⟩

/-- Fallback content synthesis of `processSerpResult`: for each item with
a non-empty title or body, the string `"{title}\n{body}\nSource: {url}"`
(null entries are compacted away). -/
def fallbackContents (results : List CustomSearchResult) : List String :=
  results.filterMap (fun item =>
    if item.title ≠ "" ∨ item.body ≠ "" then
      some (item.title ++ "\n" ++ item.body ++ "\nSource: " ++ item.url)
    else none)

/-- Deep-research module `processSerpResult`: extract a content string
per item by priority (content, body, title), compact and trim them; if
none and results exist, fall back to title/body strings; if still none,
return the sentinel learnings without calling the language model;
otherwise invoke the (timeout-bounded) language-model distillation. -/
def processSerpResult (env : Env) (query : String)
    (results : List CustomSearchResult)
    (numLearnings numFollowUpQuestions : Nat) : Except String DistillOut :=
  let contents0 := (jsCompact (results.map jsOrContent)).map
    (fun c => trimPromptS env.enc c 25000)
  let contents :=
    if contents0 = [] ∧ results ≠ [] then
      contents0 ++ (fallbackContents results).map (fun c => trimPromptS env.enc c 25000)
    else contents0
  if contents = [] then
    .ok ⟨["Unable to extract content for query: " ++ query],
         ["Retry search with different keywords for: " ++ query]⟩
  else
    env.distill query contents numLearnings numFollowUpQuestions

/-- Deep-research module `generateSerpQueries`: the LLM planning call
followed by `res.object.queries.slice(0, numQueries)`.  A planner
failure propagates as an error. -/
def generateSerpQueries (env : Env) (query : String) (learnings : List String)
    (numQueries : Nat) : Except String (List SerpQuery) :=
  (env.planLLM query learnings numQueries).map (fun qs => qs.take numQueries)

/-- The `newBreadth` computation of a branch: `Math.ceil(breadth / 2)`,
which for a natural number is `(breadth + 1) / 2`. -/
def newBreadthOf (breadth : Nat) : Nat := (breadth + 1) / 2

/-- The synthesized next query of a branch that recurses: the research
goal concatenated with the follow-up directions, trimmed. -/
def nextQuery (sq : SerpQuery) (followUps : List String) : String :=
  ("\n            Previous research goal: " ++ sq.researchGoal ++
   "\n            Follow-up research directions: " ++
   String.join (followUps.map (fun q => "\n" ++ q)) ++
   "\n          ").trim

/-- Body of one query branch of `deepResearch` (inside the `try`): the
search call, URL collection, distillation, accumulator merge, and either
the recursive call (when `newDepth > 0`) or the branch's own result.
`recurse` is the recursive `deepResearch` at depth `depth - 1`; it is
only consulted when `0 < depth - 1`. -/
def branchB (env : Env)
    (recurse : String → Nat → List String → List String → Except String ResearchResult)
    (depth breadth : Nat) (learnings visitedUrls : List String)
    (sq : SerpQuery) : Except String ResearchResult :=
  match env.search sq.query 5 with
  | .error e => .error e
  | .ok result =>
    let newUrls := jsCompact (result.map (fun item => item.url))
    let newBreadth := newBreadthOf breadth
    let newDepth := depth - 1
    match processSerpResult env sq.query result 4 newBreadth with
    | .error e => .error e
    | .ok newLearnings =>
      let allLearnings := learnings ++ newLearnings.learnings
      let allUrls := visitedUrls ++ newUrls
      if 0 < newDepth then
        recurse (nextQuery sq newLearnings.followUpQuestions) newBreadth
          allLearnings allUrls
      else
        .ok ⟨allLearnings, allUrls⟩

/-- One query branch with its `catch`: any failure inside the branch body
(search, distillation, or the recursive call) is converted into the
empty branch result `{ learnings: [], visitedUrls: [] }`. -/
def runBranch (env : Env)
    (recurse : String → Nat → List String → List String → Except String ResearchResult)
    (depth breadth : Nat) (learnings visitedUrls : List String)
    (sq : SerpQuery) : ResearchResult :=
  match branchB env recurse depth breadth learnings visitedUrls sq with
  | .ok r => r
  | .error _ => ⟨[], []⟩

/-- Model of `results.flatMap f`. -/
def flattenMap (f : α → List β) : List α → List β
  | [] => []
  | x :: xs => f x ++ flattenMap f xs

/-- Model of `[...new Set(l)]`: deduplicate keeping first occurrences. -/
def jsSetDedupGo (acc : List String) : List String → List String
  | [] => acc
  | x :: xs => if x ∈ acc then jsSetDedupGo acc xs else jsSetDedupGo (acc ++ [x]) xs

/-- Deduplication used at `deepResearch`'s final aggregation. -/
def jsSetDedup (l : List String) : List String := jsSetDedupGo [] l

/-- One level of `deepResearch`: plan the SERP queries (a failure here
propagates), run every branch (each isolated by its own catch — the
`Promise.all` over `pLimit`-wrapped tasks preserves order), and
aggregate the branch results through `Set` deduplication. -/
def deepResearchStep (env : Env)
    (recurse : String → Nat → List String → List String → Except String ResearchResult)
    (depth : Nat) (query : String) (breadth : Nat)
    (learnings visitedUrls : List String) : Except String ResearchResult :=
  match generateSerpQueries env query learnings breadth with
  | .error e => .error e
  | .ok serpQueries =>
    let results := serpQueries.map
      (runBranch env recurse depth breadth learnings visitedUrls)
    .ok ⟨jsSetDedup (flattenMap ResearchResult.learnings results),
         jsSetDedup (flattenMap ResearchResult.visitedUrls results)⟩

/-- Recursion oracle used at depth 0, where the code never recurses
(`newDepth = -1` in JS); its value is irrelevant (see
`deepResearchStep_zero_rec_irrel`). -/
def noRecurse : String → Nat → List String → List String → Except String ResearchResult :=
  fun _ _ _ _ => .ok ⟨[], []⟩

/-- Deep-research module `deepResearch`, by recursion on `depth`: a call
at depth `d + 1` recurses (inside branches, when reached) into
`deepResearch` at depth `d`; a call at depth 0 never recurses. -/
def deepResearch (env : Env) : Nat → String → Nat → List String → List String →
    Except String ResearchResult
  | 0 => deepResearchStep env noRecurse 0
  | d + 1 => deepResearchStep env (deepResearch env d) (d + 1)

/-- The recursion oracle `deepResearch` actually uses at a given depth. -/
def recurseFor (env : Env) : Nat →
    (String → Nat → List String → List String → Except String ResearchResult)
  | 0 => noRecurse
  | d + 1 => deepResearch env d

/-- A search item with content `"c"` and url `"u"`. -/
def itemU : CustomSearchResult := ⟨"", "", "", "u", "", "", "c"⟩

/-- A search item with empty content, body and title. -/
def emptyItem : CustomSearchResult := ⟨"", "", "", "u", "", "", ""⟩

/-- Environment in which planning yields two queries, the first branch's
search rejects, and the second succeeds. -/
def envIso : Env where
  planLLM := fun _ _ _ => .ok [⟨"q1", "g1"⟩, ⟨"q2", "g2"⟩]
  search := fun q _ => if q = "q1" then .error "boom" else .ok [itemU]
  distill := fun _ _ _ _ => .ok ⟨["L"], ["Q"]⟩
  enc := lenEnc

/-- Environment in which both planned branches succeed and contribute
the same learning and the same URL. -/
def envDup : Env where
  planLLM := fun _ _ _ => .ok [⟨"q1", "g1"⟩, ⟨"q2", "g2"⟩]
  search := fun _ _ => .ok [itemU]
  distill := fun _ _ _ _ => .ok ⟨["L"], ["Q"]⟩
  enc := lenEnc

/-- Environment whose query planner rejects. -/
def envFail : Env where
  planLLM := fun _ _ _ => .error "planner down"
  search := fun _ _ => .error "net down"
  distill := fun _ _ _ _ => .error "llm down"
  enc := lenEnc

/-- Environment whose planner returns one query but whose search always
rejects, so every branch fails. -/
def envAllFail : Env where
  planLLM := fun _ _ _ => .ok [⟨"q1", "g1"⟩]
  search := fun _ _ => .error "net down"
  distill := fun _ _ _ _ => .error "llm down"
  enc := lenEnc

instance (priority := low) exceptDecEq [DecidableEq ε] [DecidableEq α] :
    DecidableEq (Except ε α)
  | .error a, .error b =>
    if h : a = b then .isTrue (by rw [h]) else .isFalse (by intro hc; cases hc; exact h rfl)
  | .error _, .ok _ => .isFalse (by intro hc; cases hc)
  | .ok _, .error _ => .isFalse (by intro hc; cases hc)
  | .ok a, .ok b =>
    if h : a = b then .isTrue (by rw [h]) else .isFalse (by intro hc; cases hc; exact h rfl)


/-! ### Lemmas about the joined length of pieces -/

/-- Unfolding of `joinSep` on a list with a non-empty tail. -/
theorem joinSep_cons_ne (sep d : List Char) (ds : List (List Char)) (h : ds ≠ []) :
    joinSep sep (d :: ds) = d ++ sep ++ joinSep sep ds := by
  cases ds with
  | nil => exact absurd rfl h
  | cons d2 ds2 => rfl

/-- A member piece is no longer than the joined pieces. -/
theorem mem_length_le_joinSep (sep : List Char) :
    ∀ (l : List (List Char)) (s : List Char), s ∈ l →
      s.length ≤ (joinSep sep l).length := by
  intro l
  induction l with
  | nil => intro s hs; cases hs
  | cons d ds ih =>
    intro s hs
    cases ds with
    | nil =>
      rw [List.mem_singleton] at hs
      subst hs
      exact Nat.le_refl _
    | cons d2 ds2 =>
      rw [joinSep_cons_ne sep d (d2 :: ds2) (by simp)]
      rcases List.mem_cons.mp hs with h | h
      · subst h; simp
      · have := ih s h
        simp only [List.length_append]
        omega

/-- The total piece length is at most the joined length. -/
theorem sumLen_le_joinSep (sep : List Char) :
    ∀ l : List (List Char), sumLen l ≤ (joinSep sep l).length := by
  intro l
  induction l with
  | nil => simp [sumLen, joinSep]
  | cons d ds ih =>
    cases ds with
    | nil => simp [sumLen, joinSep]
    | cons d2 ds2 =>
      rw [joinSep_cons_ne sep d (d2 :: ds2) (by simp)]
      have h1 : sumLen (d :: d2 :: ds2) = d.length + sumLen (d2 :: ds2) := rfl
      simp only [List.length_append]
      omega

/-- Joined length is monotone when pieces are appended at the back. -/
theorem joinSep_length_append_right (sep : List Char) :
    ∀ (l1 l2 : List (List Char)),
      (joinSep sep l1).length ≤ (joinSep sep (l1 ++ l2)).length := by
  intro l1
  induction l1 with
  | nil => intro l2; simp [joinSep]
  | cons d ds ih =>
    intro l2
    cases ds with
    | nil =>
      cases l2 with
      | nil => simp
      | cons e es =>
        rw [List.singleton_append, joinSep_cons_ne sep d (e :: es) (by simp)]
        simp [joinSep]
    | cons d2 ds2 =>
      rw [joinSep_cons_ne sep d (d2 :: ds2) (by simp), List.cons_append,
        joinSep_cons_ne sep d ((d2 :: ds2) ++ l2) (by simp)]
      have := ih l2
      simp only [List.length_append]
      omega

/-- Joined length is monotone when pieces are prepended at the front. -/
theorem joinSep_length_append_left (sep : List Char) :
    ∀ (l1 l2 : List (List Char)),
      (joinSep sep l2).length ≤ (joinSep sep (l1 ++ l2)).length := by
  intro l1
  induction l1 with
  | nil => intro l2; simp
  | cons d ds ih =>
    intro l2
    rcases h : ds ++ l2 with _ | ⟨e, es⟩
    · have : l2 = [] := (List.append_eq_nil.mp h).2
      subst this
      simp [joinSep]
    · calc (joinSep sep l2).length ≤ (joinSep sep (ds ++ l2)).length := ih l2
        _ ≤ (joinSep sep (d :: (ds ++ l2))).length := by
            rw [h, joinSep_cons_ne sep d (e :: es) (by simp)]
            simp only [List.length_append]
            omega
        _ = (joinSep sep ((d :: ds) ++ l2)).length := by simp

/-- Length bound for `dropWhile`. -/
theorem dropWhile_length_le (p : Char → Bool) :
    ∀ l : List Char, (l.dropWhile p).length ≤ l.length := by
  intro l
  induction l with
  | nil => simp
  | cons c cs ih =>
    by_cases h : p c
    · simp only [List.dropWhile_cons, h, if_true]
      calc (cs.dropWhile p).length ≤ cs.length := ih
        _ ≤ (c :: cs).length := by simp
    · simp [List.dropWhile_cons, h]

/-- Trimming does not lengthen a string. -/
theorem trimL_length_le (l : List Char) : (trimL l).length ≤ l.length := by
  unfold trimL
  calc ((l.dropWhile Char.isWhitespace).reverse.dropWhile Char.isWhitespace).reverse.length
      = ((l.dropWhile Char.isWhitespace).reverse.dropWhile Char.isWhitespace).length := by
        simp
    _ ≤ (l.dropWhile Char.isWhitespace).reverse.length := dropWhile_length_le _ _
    _ = (l.dropWhile Char.isWhitespace).length := by simp
    _ ≤ l.length := dropWhile_length_le _ _

/-- An emitted document is no longer than the joined window. -/
theorem joinDocs_mem_le (doc : List (List Char)) (sep : List Char) (c : List Char)
    (h : c ∈ (joinDocs doc sep).toList) : c.length ≤ (joinSep sep doc).length := by
  unfold joinDocs at h
  by_cases he : trimL (joinSep sep doc) = []
  · simp [he] at h
  · simp [he] at h
    subst h
    exact trimL_length_le _

/-- The shrink loop only drops pieces from the front: its resulting
window is a suffix of the input window. -/
theorem shrink_suffix (ov cs len : Nat) :
    ∀ (doc : List (List Char)) (total : Nat),
      ∃ t, doc = t ++ (shrink ov cs len doc total).1 := by
  intro doc
  induction doc with
  | nil => intro total; exact ⟨[], rfl⟩
  | cons d rest ih =>
    intro total
    have hs : shrink ov cs len (d :: rest) total =
        if ov < total ∨ (cs < total + len ∧ 0 < total) then
          shrink ov cs len rest (total - d.length)
        else (d :: rest, total) := by rfl
    rw [hs]
    by_cases h : ov < total ∨ (cs < total + len ∧ 0 < total)
    · rw [if_pos h]
      obtain ⟨t, ht⟩ := ih (total - d.length)
      exact ⟨d :: t, by rw [List.cons_append, ← ht]⟩
    · rw [if_neg h]
      exact ⟨[], rfl⟩

/-- Every document produced by the merge loop is no longer than the join
of the current window with the remaining pieces. -/
theorem mergeSplitsGo_length_le (cs ov : Nat) (sep : List Char) :
    ∀ (splits doc : List (List Char)) (total : Nat) (c : List Char),
      c ∈ mergeSplitsGo cs ov sep splits doc total →
      c.length ≤ (joinSep sep (doc ++ splits)).length := by
  intro splits
  induction splits with
  | nil =>
    intro doc total c hc
    simp only [mergeSplitsGo] at hc
    rw [List.append_nil]
    exact joinDocs_mem_le doc sep c hc
  | cons d ds ih =>
    intro doc total c hc
    simp only [mergeSplitsGo] at hc
    by_cases hov : cs ≤ total + d.length
    · simp only [hov, if_true] at hc
      by_cases hdoc : doc = []
      · subst hdoc
        simp only [if_true] at hc
        have := ih [d] (total + d.length) c (by simpa using hc)
        simpa using this
      · simp only [hdoc, if_false] at hc
        rcases List.mem_append.mp hc with hemit | hrec
        · calc c.length ≤ (joinSep sep doc).length := joinDocs_mem_le doc sep c hemit
            _ ≤ (joinSep sep (doc ++ d :: ds)).length := joinSep_length_append_right sep doc _
        · have hb := ih ((shrink ov cs d.length doc total).1 ++ [d])
            ((shrink ov cs d.length doc total).2 + d.length) c hrec
          obtain ⟨t, ht⟩ := shrink_suffix ov cs d.length doc total
          calc c.length
              ≤ (joinSep sep (((shrink ov cs d.length doc total).1 ++ [d]) ++ ds)).length := hb
            _ = (joinSep sep ((shrink ov cs d.length doc total).1 ++ d :: ds)).length := by
                rw [List.append_assoc, List.singleton_append]
            _ ≤ (joinSep sep (t ++ ((shrink ov cs d.length doc total).1 ++ d :: ds))).length :=
                joinSep_length_append_left sep t _
            _ = (joinSep sep (doc ++ d :: ds)).length := by
                rw [← List.append_assoc, ← ht]
    · simp only [hov, if_false] at hc
      have := ih (doc ++ [d]) (total + d.length) c hc
      rwa [List.append_assoc, List.singleton_append] at this

/-- Every document produced by `mergeSplits` is no longer than the join
of the input pieces. -/
theorem mergeSplits_length_le (cs ov : Nat) (sep : List Char)
    (splits : List (List Char)) (c : List Char) (hc : c ∈ mergeSplits cs ov splits sep) :
    c.length ≤ (joinSep sep splits).length := by
  have := mergeSplitsGo_length_le cs ov sep splits [] 0 c hc
  rwa [List.nil_append] at this

/-- Every chunk produced by the piece-walking loop is no longer than the
join of the buffered and remaining pieces, provided the recursive
splitter enjoys the same bound on each piece. -/
theorem splitLoop_length_le (cs ov : Nat) (sep : List Char)
    (rec : List Char → List (List Char))
    (hrec : ∀ s c, c ∈ rec s → c.length ≤ s.length) :
    ∀ (splits good : List (List Char)) (c : List Char),
      c ∈ splitLoop cs ov sep rec splits good →
      c.length ≤ (joinSep sep (good ++ splits)).length := by
  intro splits
  induction splits with
  | nil =>
    intro good c hc
    simp only [splitLoop] at hc
    by_cases hg : good = []
    · simp [hg] at hc
    · simp only [hg, if_false] at hc
      rw [List.append_nil]
      exact mergeSplits_length_le cs ov sep good c hc
  | cons s ss ih =>
    intro good c hc
    simp only [splitLoop] at hc
    by_cases hlen : s.length < cs
    · simp only [hlen, if_true] at hc
      have := ih (good ++ [s]) c hc
      rwa [List.append_assoc, List.singleton_append] at this
    · simp only [hlen, if_false] at hc
      rcases List.mem_append.mp hc with hl | hr
      · rcases List.mem_append.mp hl with hflush | hrec2
        · by_cases hg : good = []
          · simp [hg] at hflush
          · simp only [hg, if_false] at hflush
            calc c.length ≤ (joinSep sep good).length :=
                  mergeSplits_length_le cs ov sep good c hflush
              _ ≤ (joinSep sep (good ++ s :: ss)).length :=
                  joinSep_length_append_right sep good _
        · calc c.length ≤ s.length := hrec s c hrec2
            _ ≤ (joinSep sep (good ++ s :: ss)).length :=
              mem_length_le_joinSep sep _ s (by simp)
      · have := ih [] c hr
        rw [List.nil_append] at this
        calc c.length ≤ (joinSep sep ss).length := this
          _ ≤ (joinSep sep ([s] ++ ss)).length := joinSep_length_append_left sep [s] ss
          _ = (joinSep sep (s :: ss)).length := by rw [List.singleton_append]
          _ ≤ (joinSep sep (good ++ s :: ss)).length := joinSep_length_append_left sep good _

/-- A boolean prefix test means the list decomposes as the prefix
followed by the remainder after dropping the prefix length. -/
theorem isPrefixOf_append_drop :
    ∀ (p l : List Char), p.isPrefixOf l = true → l = p ++ l.drop p.length := by
  intro p
  induction p with
  | nil => intro l _; simp
  | cons a as ih =>
    intro l hp
    cases l with
    | nil => simp [List.isPrefixOf] at hp
    | cons b bs =>
      simp only [List.isPrefixOf, Bool.and_eq_true, beq_iff_eq] at hp
      obtain ⟨hab, hrest⟩ := hp
      subst hab
      have := ih bs hrest
      calc a :: bs = a :: (as ++ bs.drop as.length) := by rw [← this]
        _ = (a :: as) ++ (a :: bs).drop (a :: as).length := by simp

/-- The split scanner never returns an empty list of pieces. -/
theorem splitBySepGoF_ne_nil (s0 : Char) (sep : List Char) :
    ∀ (fuel : Nat) (acc l : List Char), splitBySepGoF s0 sep fuel acc l ≠ [] := by
  intro fuel
  induction fuel with
  | zero => intro acc l; simp [splitBySepGoF]
  | succ fuel ih =>
    intro acc l
    cases l with
    | nil => simp [splitBySepGoF]
    | cons c rest =>
      simp only [splitBySepGoF]
      by_cases h : (s0 :: sep).isPrefixOf (c :: rest)
      · simp [h]
      · simp only [h, if_false]
        exact ih (c :: acc) rest

/-- Joining the scanner's pieces with the separator restores the
accumulator followed by the unscanned remainder. -/
theorem joinSep_splitBySepGoF (s0 : Char) (sep : List Char) :
    ∀ (fuel : Nat) (acc l : List Char),
      joinSep (s0 :: sep) (splitBySepGoF s0 sep fuel acc l) = acc.reverse ++ l := by
  intro fuel
  induction fuel with
  | zero => intro acc l; simp [splitBySepGoF, joinSep]
  | succ fuel ih =>
    intro acc l
    cases l with
    | nil => simp [splitBySepGoF, joinSep]
    | cons c rest =>
      simp only [splitBySepGoF]
      by_cases h : (s0 :: sep).isPrefixOf (c :: rest)
      · rw [if_pos h]
        rw [joinSep_cons_ne (s0 :: sep) acc.reverse _
          (splitBySepGoF_ne_nil s0 sep fuel [] (rest.drop sep.length)),
          ih [] (rest.drop sep.length)]
        have hd := isPrefixOf_append_drop (s0 :: sep) (c :: rest) h
        simp only [List.reverse_nil, List.nil_append]
        calc acc.reverse ++ (s0 :: sep) ++ rest.drop sep.length
            = acc.reverse ++ ((s0 :: sep) ++ (c :: rest).drop (s0 :: sep).length) := by
              simp [List.append_assoc]
          _ = acc.reverse ++ (c :: rest) := by rw [← hd]
      · rw [if_neg h]
        rw [ih (c :: acc) rest]
        simp

/-- Splitting then joining with the separator reproduces the text. -/
theorem joinSep_jsSplit (sep text : List Char) :
    joinSep sep (jsSplit sep text) = text := by
  cases sep with
  | cons s0 sep1 =>
    simp only [jsSplit]
    rw [joinSep_splitBySepGoF s0 sep1 (text.length + 1) [] text]
    simp
  | nil =>
    simp only [jsSplit]
    induction text with
    | nil => rfl
    | cons c rest ih =>
      cases rest with
      | nil => rfl
      | cons c2 rest2 =>
        rw [List.map_cons, joinSep_cons_ne [] [c] _ (by simp)]
        rw [ih]
        simp

/-- Every chunk of (fuelled) `splitText` is no longer than its input:
the content of every emitted chunk is drawn from the input text. -/
theorem splitTextF_length_le (cs ov : Nat) :
    ∀ (fuel : Nat) (text c : List Char), c ∈ splitTextF cs ov fuel text →
      c.length ≤ text.length := by
  intro fuel
  induction fuel with
  | zero => intro text c hc; cases hc
  | succ fuel ih =>
    intro text c hc
    simp only [splitTextF] at hc
    have h := splitLoop_length_le cs ov (chooseSep text) (splitTextF cs ov fuel)
      (fun s c hc2 => ih s c hc2) (jsSplit (chooseSep text) text) [] c hc
    rw [List.nil_append] at h
    calc c.length ≤ (joinSep (chooseSep text) (jsSplit (chooseSep text) text)).length := h
      _ = text.length := by rw [joinSep_jsSplit]

/-- Every chunk produced by `splitText` is no longer than the input. -/
theorem splitText_length_le (cs ov : Nat) (text c : List Char)
    (hc : c ∈ splitText cs ov text) : c.length ≤ text.length :=
  splitTextF_length_le cs ov (text.length + 1) text c hc

/-- When no piece can trigger the chunk-size check, the merge loop just
extends the window with every piece and emits one joined document. -/
theorem mergeSplitsGo_small (cs ov : Nat) (sep : List Char) :
    ∀ (splits doc : List (List Char)) (total : Nat),
      total + sumLen splits < cs →
      mergeSplitsGo cs ov sep splits doc total = (joinDocs (doc ++ splits) sep).toList := by
  intro splits
  induction splits with
  | nil =>
    intro doc total _
    simp [mergeSplitsGo]
  | cons d ds ih =>
    intro doc total h
    have hsum : sumLen (d :: ds) = d.length + sumLen ds := rfl
    have hlt : ¬ cs ≤ total + d.length := by omega
    simp only [mergeSplitsGo]
    rw [if_neg hlt, ih (doc ++ [d]) (total + d.length) (by omega)]
    rw [List.append_assoc, List.singleton_append]

/-- When every piece is below `chunkSize`, the piece-walking loop
reduces to a single `mergeSplits` of the buffered and remaining
pieces. -/
theorem splitLoop_all_small (cs ov : Nat) (sep : List Char)
    (rec : List Char → List (List Char)) :
    ∀ (splits good : List (List Char)),
      (∀ s ∈ splits, s.length < cs) →
      splitLoop cs ov sep rec splits good =
        if good ++ splits = [] then [] else mergeSplits cs ov (good ++ splits) sep := by
  intro splits
  induction splits with
  | nil =>
    intro good _
    simp [splitLoop]
  | cons s ss ih =>
    intro good h
    have hs : s.length < cs := h s (by simp)
    simp only [splitLoop]
    rw [if_pos hs, ih (good ++ [s]) (fun s2 hs2 => h s2 (by simp [hs2]))]
    rw [List.append_assoc, List.singleton_append]

/-- Splitting a non-empty text yields at least one piece. -/
theorem jsSplit_ne_nil (sep text : List Char) (h : text ≠ []) :
    jsSplit sep text ≠ [] := by
  cases sep with
  | nil => simp [jsSplit, h]
  | cons s0 sep1 => exact splitBySepGoF_ne_nil s0 sep1 (text.length + 1) [] text

/-- Helper for claim C8: on text strictly shorter than `chunkSize`,
`splitText` returns the single trimmed text when that trim is
non-empty, and nothing at all when the text trims to the empty
string. -/
theorem splitText_small_eq (cs ov : Nat) (text : List Char)
    (h : text.length < cs) :
    splitText cs ov text = if trimL text = [] then [] else [trimL text] := by
  have hjoin : (joinSep (chooseSep text) (jsSplit (chooseSep text) text)).length
      = text.length := by rw [joinSep_jsSplit]
  have hpieces : ∀ s ∈ jsSplit (chooseSep text) text, s.length < cs := by
    intro s hs
    have h1 := mem_length_le_joinSep (chooseSep text) _ s hs
    omega
  by_cases htext : text = []
  · subst htext
    have h0 : splitText cs ov [] = [] := rfl
    rw [h0]
    have ht : trimL [] = [] := rfl
    rw [ht, if_pos rfl]
  · have hne : jsSplit (chooseSep text) text ≠ [] :=
      jsSplit_ne_nil (chooseSep text) text htext
    have hsum : (0 : Nat) + sumLen (jsSplit (chooseSep text) text) < cs := by
      have h2 := sumLen_le_joinSep (chooseSep text) (jsSplit (chooseSep text) text)
      omega
    show splitLoop cs ov (chooseSep text) (splitTextF cs ov text.length)
      (jsSplit (chooseSep text) text) [] = _
    rw [splitLoop_all_small cs ov (chooseSep text) (splitTextF cs ov text.length)
      (jsSplit (chooseSep text) text) [] hpieces]
    rw [List.nil_append, if_neg hne]
    show mergeSplitsGo cs ov (chooseSep text) (jsSplit (chooseSep text) text) [] 0 = _
    rw [mergeSplitsGo_small cs ov (chooseSep text) (jsSplit (chooseSep text) text) [] 0 hsum]
    rw [List.nil_append]
    unfold joinDocs
    rw [joinSep_jsSplit]
    by_cases ht : trimL text = [] <;> simp [ht]

/-- The first chunk the trimmer takes from the splitter output is no
longer than the prompt (the empty fallback included). -/
theorem trimmedPromptOf_length_le (enc : List Char → Nat) (prompt : List Char)
    (contextSize : Nat) :
    (trimmedPromptOf enc prompt contextSize).length ≤ prompt.length := by
  unfold trimmedPromptOf
  cases h : splitText (chunkSizeOf enc prompt contextSize).toNat 0 prompt with
  | nil => simp
  | cons a as =>
    simp only [List.headD_cons]
    exact splitText_length_le _ _ prompt a (by rw [h]; exact List.mem_cons_self a as)

/-- Arithmetic facts about the branch in which the trimmer recurses on a
hard character slice: the slice is strictly shorter than the prompt. -/
theorem chunkSize_take_lt (enc : List Char → Nat) (prompt : List Char)
    (contextSize : Nat) (h2 : ¬ enc prompt ≤ contextSize)
    (h3 : ¬ chunkSizeOf enc prompt contextSize < (MinChunkSize : Int)) :
    (prompt.take (chunkSizeOf enc prompt contextSize).toNat).length + 3 ≤ prompt.length := by
  have hov : 1 ≤ enc prompt - contextSize := by omega
  have hcs : chunkSizeOf enc prompt contextSize =
      (prompt.length : Int) - ((enc prompt - contextSize : Nat) : Int) * 3 := rfl
  have hlen : (prompt.take (chunkSizeOf enc prompt contextSize).toNat).length =
      min (chunkSizeOf enc prompt contextSize).toNat prompt.length := by
    simp [List.length_take]
  rw [hlen]
  unfold MinChunkSize at h3
  omega

/-- The trimmer's result property, by strong induction on fuel: the
result's token count fits the budget or the result is at most the
minimum floor long. -/
theorem trimPromptF_result (enc : List Char → Nat) (N : Nat) :
    ∀ (fuel : Nat) (prompt : List Char), prompt.length < fuel →
      enc (trimPromptF enc fuel prompt N) ≤ N ∨
      (trimPromptF enc fuel prompt N).length ≤ MinChunkSize := by
  intro fuel
  induction fuel with
  | zero => intro prompt h; omega
  | succ fuel ih =>
    intro prompt h
    simp only [trimPromptF]
    split_ifs with h1 h2 h3 h4
    · right; simp [MinChunkSize]
    · left; exact h2
    · right
      calc (prompt.take MinChunkSize).length ≤ MinChunkSize := by
            simp [List.length_take]
        _ ≤ MinChunkSize := Nat.le_refl _
    · exact ih _ (by have := chunkSize_take_lt enc prompt N h2 h3; omega)
    · refine ih _ ?_
      have hle := trimmedPromptOf_length_le enc prompt N
      omega

/-- Fuel irrelevance for the trimmer: any fuel beyond the prompt length
computes the same value — this is the termination argument (each
recursive call strictly reduces the prompt length). -/
theorem trimPromptF_fuel_irrel (enc : List Char → Nat) (N : Nat) :
    ∀ (fuel fuel' : Nat) (prompt : List Char),
      prompt.length < fuel → prompt.length < fuel' →
      trimPromptF enc fuel prompt N = trimPromptF enc fuel' prompt N := by
  intro fuel
  induction fuel with
  | zero => intro fuel' prompt h _; omega
  | succ fuel ih =>
    intro fuel' prompt h h'
    cases fuel' with
    | zero => omega
    | succ fuel' =>
      simp only [trimPromptF]
      split_ifs with h1 h2 h3 h4
      · rfl
      · rfl
      · rfl
      · exact ih fuel' _ (by have := chunkSize_take_lt enc prompt N h2 h3; omega)
          (by have := chunkSize_take_lt enc prompt N h2 h3; omega)
      · have hle := trimmedPromptOf_length_le enc prompt N
        exact ih fuel' _ (by omega) (by omega)

/-- Membership in a flat-mapped list. -/
theorem flattenMap_mem {α β : Type} (f : α → List β) :
    ∀ (l : List α) (b : β), b ∈ flattenMap f l ↔ ∃ a ∈ l, b ∈ f a := by
  intro l
  induction l with
  | nil => intro b; simp [flattenMap]
  | cons x xs ih =>
    intro b
    simp only [flattenMap, List.mem_append, ih, List.mem_cons]
    constructor
    · rintro (hb | ⟨a, ha, hb⟩)
      · exact ⟨x, Or.inl rfl, hb⟩
      · exact ⟨a, Or.inr ha, hb⟩
    · rintro ⟨a, ha | ha, hb⟩
      · subst ha; exact Or.inl hb
      · exact Or.inr ⟨a, ha, hb⟩

/-- Membership through the JS `Set` deduplication loop. -/
theorem jsSetDedupGo_mem :
    ∀ (l acc : List String) (x : String),
      x ∈ jsSetDedupGo acc l ↔ x ∈ acc ∨ x ∈ l := by
  intro l
  induction l with
  | nil => intro acc x; simp [jsSetDedupGo]
  | cons y ys ih =>
    intro acc x
    simp only [jsSetDedupGo]
    by_cases hy : y ∈ acc
    · rw [if_pos hy, ih acc x]
      constructor
      · rintro (hx | hx)
        · exact Or.inl hx
        · exact Or.inr (List.mem_cons_of_mem y hx)
      · rintro (hx | hx)
        · exact Or.inl hx
        · rcases List.mem_cons.mp hx with hx | hx
          · subst hx; exact Or.inl hy
          · exact Or.inr hx
    · rw [if_neg hy, ih (acc ++ [y]) x]
      simp only [List.mem_append, List.mem_singleton, List.mem_cons]
      tauto

/-- The JS `Set` deduplication loop preserves freedom from duplicates. -/
theorem jsSetDedupGo_nodup :
    ∀ (l acc : List String), acc.Nodup → (jsSetDedupGo acc l).Nodup := by
  intro l
  induction l with
  | nil => intro acc h; exact h
  | cons y ys ih =>
    intro acc h
    simp only [jsSetDedupGo]
    by_cases hy : y ∈ acc
    · rw [if_pos hy]; exact ih acc h
    · rw [if_neg hy]
      refine ih (acc ++ [y]) ?_
      rw [List.nodup_append]
      exact ⟨h, List.nodup_singleton y, by simpa using hy⟩

/-- Membership in the deduplicated aggregation. -/
theorem jsSetDedup_mem (l : List String) (x : String) :
    x ∈ jsSetDedup l ↔ x ∈ l := by
  unfold jsSetDedup
  rw [jsSetDedupGo_mem]
  simp

/-- The deduplicated aggregation has no duplicates. -/
theorem jsSetDedup_nodup (l : List String) : (jsSetDedup l).Nodup :=
  jsSetDedupGo_nodup l [] List.nodup_nil

/-- Every string of the input occurs exactly once after deduplication. -/
theorem jsSetDedup_count (l : List String) (x : String) (h : x ∈ l) :
    (jsSetDedup l).count x = 1 :=
  List.count_eq_one_of_mem (jsSetDedup_nodup l) ((jsSetDedup_mem l x).mpr h)

/-- Unfolding `deepResearch` into one step with its recursion oracle. -/
theorem deepResearch_eq_step (env : Env) (depth : Nat) (q : String) (b : Nat)
    (l u : List String) :
    deepResearch env depth q b l u =
      deepResearchStep env (recurseFor env depth) depth q b l u := by
  cases depth with
  | zero => rfl
  | succ d => rfl

/-- At depth 0 a branch never consults the recursion oracle
(`newDepth = depth - 1` is not positive). -/
theorem branchB_zero_rec_irrel (env : Env)
    (rec rec' : String → Nat → List String → List String → Except String ResearchResult)
    (b : Nat) (l u : List String) (sq : SerpQuery) :
    branchB env rec 0 b l u sq = branchB env rec' 0 b l u sq := by
  unfold branchB
  cases env.search sq.query 5 with
  | error e => rfl
  | ok result =>
    cases processSerpResult env sq.query result 4 (newBreadthOf b) with
    | error e => rfl
    | ok nl => simp

/-- At depth 0 a caught branch never consults the recursion oracle. -/
theorem runBranch_zero_rec_irrel (env : Env)
    (rec rec' : String → Nat → List String → List String → Except String ResearchResult)
    (b : Nat) (l u : List String) (sq : SerpQuery) :
    runBranch env rec 0 b l u sq = runBranch env rec' 0 b l u sq := by
  unfold runBranch
  rw [branchB_zero_rec_irrel env rec rec' b l u sq]

/-- At depth 0 a whole orchestration step is independent of the
recursion oracle: no recursive call is made. -/
theorem deepResearchStep_zero_rec_irrel (env : Env)
    (rec rec' : String → Nat → List String → List String → Except String ResearchResult)
    (q : String) (b : Nat) (l u : List String) :
    deepResearchStep env rec 0 q b l u = deepResearchStep env rec' 0 q b l u := by
  unfold deepResearchStep
  cases generateSerpQueries env q l b with
  | error e => rfl
  | ok qs =>
    have hmap : qs.map (runBranch env rec 0 b l u) = qs.map (runBranch env rec' 0 b l u) :=
      List.map_congr_left (fun sq _ => runBranch_zero_rec_irrel env rec rec' b l u sq)
    simp only [hmap]

/-- A branch whose body rejects contributes the empty branch result. -/
theorem runBranch_error_empty (env : Env)
    (rec : String → Nat → List String → List String → Except String ResearchResult)
    (depth b : Nat) (l u : List String) (sq : SerpQuery)
    (h : (branchB env rec depth b l u sq).isOk = false) :
    runBranch env rec depth b l u sq = ⟨[], []⟩ := by
  unfold runBranch
  cases hb : branchB env rec depth b l u sq with
  | error e => rfl
  | ok r => rw [hb] at h; simp [Except.isOk, Except.toBool] at h

/-- A flat-map over elements that all map to the empty list is empty. -/
theorem flattenMap_empty_of_all {α β : Type} (f : α → List β) :
    ∀ l : List α, (∀ a ∈ l, f a = []) → flattenMap f l = [] := by
  intro l
  induction l with
  | nil => intro _; rfl
  | cons x xs ih =>
    intro h
    simp only [flattenMap]
    rw [h x (by simp), ih (fun a ha => h a (by simp [ha])), List.append_nil]

/-- C10: deepResearch does not catch failures of its own query-planning
step — if `generateSerpQueries` rejects, the whole `deepResearch` call
rejects with that error (the planning call sits outside the per-branch
try/catch). -/
theorem deepResearch_planner_failure (env : Env) (depth : Nat) (q : String)
    (b : Nat) (l u : List String) (e : String)
    (h : generateSerpQueries env q l b = .error e) :
    deepResearch env depth q b l u = .error e := by
  rw [deepResearch_eq_step]
  unfold deepResearchStep
  rw [h]

/-- Witness for C10 at a concrete environment whose planner rejects. -/
theorem deepResearch_planner_failure_witness :
    deepResearch envFail 3 "q" 4 [] [] = .error "planner down" :=
  deepResearch_planner_failure envFail 3 "q" 4 [] [] "planner down" rfl

/-- C9: when every search result item has empty content, body and title
(so both the primary extraction and the title/body fallback yield no
content), `processSerpResult` returns exactly the sentinel learnings and
follow-up questions, without consulting the language model (the
environment — including an always-failing distiller — is arbitrary) and
without throwing. -/
theorem processSerpResult_sentinel (env : Env) (query : String)
    (results : List CustomSearchResult) (nL nF : Nat)
    (h : ∀ item ∈ results, item.content = "" ∧ item.body = "" ∧ item.title = "") :
    processSerpResult env query results nL nF =
      .ok ⟨["Unable to extract content for query: " ++ query],
           ["Retry search with different keywords for: " ++ query]⟩ := by
  unfold processSerpResult
  have hc : jsCompact (results.map jsOrContent) = [] := by
    unfold jsCompact
    rw [List.filter_eq_nil_iff]
    intro s hs
    rcases List.mem_map.mp hs with ⟨item, hi, rfl⟩
    obtain ⟨h1, h2, h3⟩ := h item hi
    simp [jsOrContent, h1, h2, h3]
  have hf : fallbackContents results = [] := by
    unfold fallbackContents
    rw [List.filterMap_eq_nil_iff]
    intro item hi
    obtain ⟨h1, h2, h3⟩ := h item hi
    simp [h1, h2, h3]
  rw [hc, hf]
  simp

/-- Witness for C9 at a concrete all-empty result item and an
environment whose distiller always rejects. -/
theorem processSerpResult_sentinel_witness :
    processSerpResult envFail "q" [emptyItem] 4 2 =
      .ok ⟨["Unable to extract content for query: " ++ "q"],
           ["Retry search with different keywords for: " ++ "q"]⟩ :=
  processSerpResult_sentinel envFail "q" [emptyItem] 4 2 (by decide)

/-- C4: when planning succeeds but yields zero queries, or every
generated branch fails (its body rejects and is caught), the aggregated
result is exactly `{ learnings: [], visitedUrls: [] }` — the
caller-supplied accumulators are discarded, since aggregation is built
only from branch results. -/
theorem deepResearch_all_fail_empty (env : Env) (depth : Nat) (q : String)
    (b : Nat) (l u : List String) (qs : List SerpQuery)
    (h : generateSerpQueries env q l b = .ok qs)
    (h2 : ∀ sq ∈ qs,
      (branchB env (recurseFor env depth) depth b l u sq).isOk = false) :
    deepResearch env depth q b l u = .ok ⟨[], []⟩ := by
  rw [deepResearch_eq_step]
  unfold deepResearchStep
  rw [h]
  have hmap : ∀ r ∈ qs.map (runBranch env (recurseFor env depth) depth b l u),
      r = (⟨[], []⟩ : ResearchResult) := by
    intro r hr
    rcases List.mem_map.mp hr with ⟨sq, hsq, rfl⟩
    exact runBranch_error_empty env _ depth b l u sq (h2 sq hsq)
  have hl : flattenMap ResearchResult.learnings
      (qs.map (runBranch env (recurseFor env depth) depth b l u)) = [] :=
    flattenMap_empty_of_all _ _ (fun r hr => by rw [hmap r hr])
  have hu : flattenMap ResearchResult.visitedUrls
      (qs.map (runBranch env (recurseFor env depth) depth b l u)) = [] :=
    flattenMap_empty_of_all _ _ (fun r hr => by rw [hmap r hr])
  simp only [hl, hu]
  rfl

/-- Witness for C4: a concrete environment with one planned query whose
search rejects; the non-empty input accumulators are discarded. -/
theorem deepResearch_all_fail_empty_witness :
    deepResearch envAllFail 1 "q" 1 ["old"] ["u0"] = .ok ⟨[], []⟩ :=
  deepResearch_all_fail_empty envAllFail 1 "q" 1 ["old"] ["u0"]
    [⟨"q1", "g1"⟩] rfl (by decide)

/-- C1: when query planning succeeds, a failure thrown inside one query
branch (search, distillation, or the recursive call, a timeout included
— any `.error` of the branch body) is caught at that branch's boundary
and converted into the empty branch result, every branch's learnings and
URLs appear in the aggregated result, and the overall call does not
throw. -/
theorem deepResearch_branch_isolation (env : Env) (depth : Nat) (q : String)
    (b : Nat) (l u : List String) (qs : List SerpQuery)
    (h : generateSerpQueries env q l b = .ok qs) :
    ∃ res, deepResearch env depth q b l u = .ok res ∧
      (∀ sq ∈ qs,
        (branchB env (recurseFor env depth) depth b l u sq).isOk = false →
        runBranch env (recurseFor env depth) depth b l u sq = ⟨[], []⟩) ∧
      (∀ sq ∈ qs, ∀ x ∈ (runBranch env (recurseFor env depth) depth b l u sq).learnings,
        x ∈ res.learnings) ∧
      (∀ sq ∈ qs, ∀ x ∈ (runBranch env (recurseFor env depth) depth b l u sq).visitedUrls,
        x ∈ res.visitedUrls) := by
  rw [deepResearch_eq_step]
  unfold deepResearchStep
  rw [h]
  refine ⟨_, rfl, ?_, ?_, ?_⟩
  · intro sq _ hfail
    exact runBranch_error_empty env _ depth b l u sq hfail
  · intro sq hsq x hx
    rw [jsSetDedup_mem, flattenMap_mem]
    exact ⟨runBranch env (recurseFor env depth) depth b l u sq,
      List.mem_map_of_mem _ hsq, hx⟩
  · intro sq hsq x hx
    rw [jsSetDedup_mem, flattenMap_mem]
    exact ⟨runBranch env (recurseFor env depth) depth b l u sq,
      List.mem_map_of_mem _ hsq, hx⟩

/-- Witness for C1: two planned queries, the first branch's search
rejects ("boom"), the second succeeds; the aggregate keeps the second
branch's learning and URL and the call returns `.ok`. -/
theorem deepResearch_branch_isolation_witness :
    ∃ res, deepResearch envIso 1 "q" 2 [] [] = .ok res ∧
      (∀ sq ∈ [(⟨"q1", "g1"⟩ : SerpQuery), ⟨"q2", "g2"⟩],
        (branchB envIso (recurseFor envIso 1) 1 2 [] [] sq).isOk = false →
        runBranch envIso (recurseFor envIso 1) 1 2 [] [] sq = ⟨[], []⟩) ∧
      (∀ sq ∈ [(⟨"q1", "g1"⟩ : SerpQuery), ⟨"q2", "g2"⟩],
        ∀ x ∈ (runBranch envIso (recurseFor envIso 1) 1 2 [] [] sq).learnings,
        x ∈ res.learnings) ∧
      (∀ sq ∈ [(⟨"q1", "g1"⟩ : SerpQuery), ⟨"q2", "g2"⟩],
        ∀ x ∈ (runBranch envIso (recurseFor envIso 1) 1 2 [] [] sq).visitedUrls,
        x ∈ res.visitedUrls) :=
  deepResearch_branch_isolation envIso 1 "q" 2 [] [] [⟨"q1", "g1"⟩, ⟨"q2", "g2"⟩] rfl

/-- C7: the aggregated result is `Set`-deduplicated — its learnings and
visited URLs contain no duplicate strings, and every string contributed
by any branch (also when two branches contribute the same string)
occurs in the aggregate exactly once. -/
theorem deepResearch_dedup (env : Env) (depth : Nat) (q : String)
    (b : Nat) (l u : List String) (qs : List SerpQuery)
    (h : generateSerpQueries env q l b = .ok qs) :
    ∃ res, deepResearch env depth q b l u = .ok res ∧
      res.learnings.Nodup ∧ res.visitedUrls.Nodup ∧
      (∀ x ∈ flattenMap ResearchResult.learnings
          (qs.map (runBranch env (recurseFor env depth) depth b l u)),
        res.learnings.count x = 1) ∧
      (∀ x ∈ flattenMap ResearchResult.visitedUrls
          (qs.map (runBranch env (recurseFor env depth) depth b l u)),
        res.visitedUrls.count x = 1) := by
  rw [deepResearch_eq_step]
  unfold deepResearchStep
  rw [h]
  exact ⟨_, rfl, jsSetDedup_nodup _, jsSetDedup_nodup _,
    fun x hx => jsSetDedup_count _ x hx, fun x hx => jsSetDedup_count _ x hx⟩

/-- Witness for C7: both branches succeed and contribute the same
learning "L" and the same URL "u"; each occurs exactly once in the
aggregate. -/
theorem deepResearch_dedup_witness :
    ∃ res, deepResearch envDup 1 "q" 2 [] [] = .ok res ∧
      res.learnings.Nodup ∧ res.visitedUrls.Nodup ∧
      (∀ x ∈ flattenMap ResearchResult.learnings
          (([(⟨"q1", "g1"⟩ : SerpQuery), ⟨"q2", "g2"⟩]).map
            (runBranch envDup (recurseFor envDup 1) 1 2 [] [])),
        res.learnings.count x = 1) ∧
      (∀ x ∈ flattenMap ResearchResult.visitedUrls
          (([(⟨"q1", "g1"⟩ : SerpQuery), ⟨"q2", "g2"⟩]).map
            (runBranch envDup (recurseFor envDup 1) 1 2 [] [])),
        res.visitedUrls.count x = 1) :=
  deepResearch_dedup envDup 1 "q" 2 [] [] [⟨"q1", "g1"⟩, ⟨"q2", "g2"⟩] rfl

/-- C5: recursion descends exactly one depth level at a time and stops
at depth 0: a step at depth 0 is independent of the recursion oracle (no
recursive call occurs), `deepResearch` at depth 0 is one single round of
planning, per-query search and distillation with no recursion, and
`deepResearch` at depth `d + 1` is one step whose recursion oracle is
`deepResearch` at depth `d`. -/
theorem deepResearch_depth_termination :
    (∀ (env : Env) rec rec' (q : String) (b : Nat) (l u : List String),
      deepResearchStep env rec 0 q b l u = deepResearchStep env rec' 0 q b l u) ∧
    (∀ (env : Env) (q : String) (b : Nat) (l u : List String),
      deepResearch env 0 q b l u =
        match generateSerpQueries env q l b with
        | .error e => .error e
        | .ok qs =>
          .ok ⟨jsSetDedup (flattenMap ResearchResult.learnings
                  (qs.map (runBranch env noRecurse 0 b l u))),
               jsSetDedup (flattenMap ResearchResult.visitedUrls
                  (qs.map (runBranch env noRecurse 0 b l u)))⟩) ∧
    (∀ (env : Env) (d : Nat) (q : String) (b : Nat) (l u : List String),
      deepResearch env (d + 1) q b l u =
        deepResearchStep env (deepResearch env d) (d + 1) q b l u) := by
  refine ⟨fun env rec rec' q b l u =>
      deepResearchStep_zero_rec_irrel env rec rec' q b l u,
    fun env q b l u => ?_, fun env d q b l u => rfl⟩
  show deepResearchStep env noRecurse 0 q b l u = _
  unfold deepResearchStep
  cases generateSerpQueries env q l b with
  | error e => rfl
  | ok qs => rfl

/-- C6: every immediate recursive child call is invoked with breadth
`ceil(b / 2) = (b + 1) / 2`: when a branch reaches its recursion (search
and distillation succeeded, remaining depth positive), the recursion
oracle receives exactly `newBreadthOf b`; moreover `newBreadthOf 3 = 2`,
`newBreadthOf 1 = 1`, and the child breadth is never 0 for positive
`b`. -/
theorem deepResearch_breadth_decay (env : Env)
    (rec : String → Nat → List String → List String → Except String ResearchResult)
    (depth b : Nat) (l u : List String) (sq : SerpQuery)
    (r : List CustomSearchResult) (nl : DistillOut)
    (hs : env.search sq.query 5 = .ok r)
    (hp : processSerpResult env sq.query r 4 (newBreadthOf b) = .ok nl)
    (hd : 2 ≤ depth) :
    branchB env rec depth b l u sq =
      rec (nextQuery sq nl.followUpQuestions) (newBreadthOf b)
        (l ++ nl.learnings) (u ++ jsCompact (r.map (fun item => item.url))) ∧
    newBreadthOf 3 = 2 ∧ newBreadthOf 1 = 1 ∧
    (∀ b', 1 ≤ b' → 1 ≤ newBreadthOf b') := by
  refine ⟨?_, rfl, rfl, fun b' hb => ?_⟩
  · unfold branchB
    simp only [hs, hp]
    rw [if_pos (by omega : 0 < depth - 1)]
  · unfold newBreadthOf
    omega

/-- Witness for C6 at depth 2, breadth 3: the child call receives
breadth 2. -/
theorem deepResearch_breadth_decay_witness :
    branchB envDup noRecurse 2 3 [] [] ⟨"q1", "g1"⟩ =
      noRecurse (nextQuery ⟨"q1", "g1"⟩ ["Q"]) (newBreadthOf 3)
        ([] ++ ["L"]) ([] ++ jsCompact ([itemU].map (fun item => item.url))) ∧
    newBreadthOf 3 = 2 ∧ newBreadthOf 1 = 1 ∧
    (∀ b', 1 ≤ b' → 1 ≤ newBreadthOf b') :=
  deepResearch_breadth_decay envDup noRecurse 2 3 [] [] ⟨"q1", "g1"⟩
    [itemU] ⟨["L"], ["Q"]⟩ rfl (by decide) (by decide)

/-- Counterexample for C2: on the pieces `["aaa", "bbbbbbbb"]` with
`chunkSize = 10`, `chunkOverlap = 5` and the empty separator, the
implementation's `mergeSplits` differs from the specification's
disjunctive window-shrink rule — at window total 3 the first stop
condition (3 below overlap 5) already holds, yet the implementation
keeps dropping because adding the 8-long piece still overflows. -/
theorem mergeSplits_shrink_rule_cex :
    mergeSplits 10 5 [['a','a','a'], ['b','b','b','b','b','b','b','b']] [] ≠
    mergeSplitsDisj 10 5 [['a','a','a'], ['b','b','b','b','b','b','b','b']] [] := by
  decide

/-- The implementation's shrink loop equals the conjunctive-stop
variant. -/
theorem shrink_eq_shrinkConj (ov cs len : Nat) :
    ∀ (doc : List (List Char)) (total : Nat),
      shrink ov cs len doc total = shrinkConj ov cs len doc total := by
  intro doc
  induction doc with
  | nil => intro total; rfl
  | cons d rest ih =>
    intro total
    have h1 : shrink ov cs len (d :: rest) total =
        if ov < total ∨ (cs < total + len ∧ 0 < total) then
          shrink ov cs len rest (total - d.length)
        else (d :: rest, total) := by rfl
    have h2 : shrinkConj ov cs len (d :: rest) total =
        if total ≤ ov ∧ (total + len ≤ cs ∨ total = 0) then (d :: rest, total)
        else shrinkConj ov cs len rest (total - d.length) := by rfl
    rw [h1, h2]
    by_cases h : ov < total ∨ (cs < total + len ∧ 0 < total)
    · rw [if_pos h, if_neg (by omega), ih]
    · rw [if_neg h, if_pos (by omega)]

/-- The merge loops agree once the shrink loops do. -/
theorem mergeSplitsGo_eq_conj (cs ov : Nat) (sep : List Char) :
    ∀ (splits doc : List (List Char)) (total : Nat),
      mergeSplitsGo cs ov sep splits doc total =
      mergeSplitsGoConj cs ov sep splits doc total := by
  intro splits
  induction splits with
  | nil => intro doc total; rfl
  | cons d ds ih =>
    intro doc total
    simp only [mergeSplitsGo, mergeSplitsGoConj]
    by_cases h1 : cs ≤ total + d.length
    · by_cases h2 : doc = []
      · rw [if_pos h1, if_pos h2, if_pos h1, if_pos h2, ih]
      · rw [if_pos h1, if_neg h2, if_pos h1, if_neg h2,
          shrink_eq_shrinkConj ov cs d.length doc total, ih]
    · rw [if_neg h1, if_neg h1, ih]

/-- Amended C2: `mergeSplits` shrinks the window until BOTH stop
conditions hold — the window total is at most `chunkOverlap` (non-strict)
AND (adding the new piece no longer exceeds `chunkSize`, or the window
has been emptied): the implementation equals the conjunctive-rule
variant on every chunk size, overlap, separator and piece list. -/
theorem mergeSplits_shrink_rule_amended (cs ov : Nat)
    (splits : List (List Char)) (sep : List Char) :
    mergeSplits cs ov splits sep = mergeSplitsConj cs ov splits sep :=
  mergeSplitsGo_eq_conj cs ov sep splits [] 0

/-- Counterexample for C3: with a character-count tokenizer, the
ten-character prompt and token budget 1 make the trimmer take the
hard-truncation branch (`chunkSize` is negative) and return the whole
ten-character prompt: its token count exceeds the budget and its length
is not the 140-character floor. -/
theorem trimPrompt_floor_cex :
    0 < 1 ∧
    ¬(lenEnc (trimPrompt lenEnc "aaaaaaaaaa".data 1) ≤ 1 ∨
      (trimPrompt lenEnc "aaaaaaaaaa".data 1).length = MinChunkSize) := by
  decide

/-- Amended C3: for every tokenizer, prompt and budget, `trimPrompt`
terminates — its fuelled computation is independent of any fuel beyond
the prompt length, because every recursive call strictly reduces the
prompt length — and its result either has token count within the budget
or has length at most the 140-character minimum floor. -/
theorem trimPrompt_convergence (enc : List Char → Nat) (prompt : List Char)
    (N : Nat) :
    (enc (trimPrompt enc prompt N) ≤ N ∨
      (trimPrompt enc prompt N).length ≤ MinChunkSize) ∧
    (∀ fuel, prompt.length < fuel →
      trimPromptF enc fuel prompt N = trimPrompt enc prompt N) := by
  constructor
  · exact trimPromptF_result enc N (prompt.length + 1) prompt (by omega)
  · intro fuel hf
    exact trimPromptF_fuel_irrel enc N fuel (prompt.length + 1) prompt hf (by omega)

/-- Witness for C3's amended statement at a concrete one-character
prompt within budget. -/
theorem trimPrompt_convergence_witness :
    (lenEnc (trimPrompt lenEnc ['a'] 5) ≤ 5 ∨
      (trimPrompt lenEnc ['a'] 5).length ≤ MinChunkSize) ∧
    trimPromptF lenEnc 2 ['a'] 5 = trimPrompt lenEnc ['a'] 5 :=
  ⟨(trimPrompt_convergence lenEnc ['a'] 5).1,
   (trimPrompt_convergence lenEnc ['a'] 5).2 2 (by decide)⟩

/-- Counterexample for C8: the single-space text is shorter than the
chunk size, but `splitText` returns the empty list, not the one-element
list of the trimmed text. -/
theorem splitText_small_cex :
    ([' '] : List Char).length < 1000 ∧
    splitText 1000 200 [' '] ≠ [trimL [' ']] := by
  decide

/-- Amended C8: on text strictly shorter than `chunkSize`, `splitText`
returns the one-element list of the trimmed text when that trim is
non-empty, and the empty list when the text trims to nothing. -/
theorem splitText_small_identity (cs ov : Nat) (text : List Char)
    (h : text.length < cs) :
    splitText cs ov text = if trimL text = [] then [] else [trimL text] :=
  splitText_small_eq cs ov text h

/-- Witness for C8's amended statement at a concrete two-character
text. -/
theorem splitText_small_identity_witness :
    splitText 1000 200 ['a', 'b'] =
      if trimL ['a', 'b'] = [] then [] else [trimL ['a', 'b']] :=
  splitText_small_identity 1000 200 ['a', 'b'] (by decide)
